import Mathlib

/-!
Verification development for the netconf-rs session and framing layer.

The source under verification is a NETCONF client whose framing layer
delimits XML messages on a byte stream with the six-byte sequence
between messages, and whose session layer performs a hello capability
handshake before RPCs.

Modelling conventions:
* A Rust byte (u8) is a Nat below 256; a Rust Vec<u8> is a List Nat.
* A Rust String or str is modelled by its UTF-8 byte list; Rust string
  equality coincides with byte-list equality.
* The SSH channels are modelled by the list of results that successive
  channel reads will deliver ("events"); the framing loops are given
  explicit fuel, with divergence witnessed by the result being none for
  every fuel.
* Fallible Rust code returns a result constructor; a Rust panic (from
  unwrap) is the distinguished constructor panicked.
-/

namespace Netconf

/-- The NETCONF end-of-message delimiter bytes, the Rust byte string of
the six characters right-bracket right-bracket greater twice. -/
def delim : List Nat := [93, 93, 62, 93, 93, 62]

/-- First index at which the delimiter occurs in a byte list, as computed
by TwoWaySearcher.search_in in both transports: the least position whose
suffix starts with the delimiter. -/
def findDelim : List Nat → Option Nat
  | [] => none
  | a :: t =>
    if delim.isPrefixOf (a :: t) then some 0
    else (findDelim t).map (· + 1)

/-- Whether a byte is a UTF-8 continuation byte (0x80 to 0xBF). -/
def isCont (b : Nat) : Bool := 128 ≤ b && b < 192

/-- Second-byte constraint of a three-byte UTF-8 sequence headed by b0:
continuation, no overlong encodings (0xE0 head), no surrogates (0xED head). -/
def cont3 (b0 b1 : Nat) : Bool :=
  isCont b1 && (b0 ≠ 224 || 160 ≤ b1) && (b0 ≠ 237 || b1 < 160)

/-- Second-byte constraint of a four-byte UTF-8 sequence headed by b0:
continuation, no overlong encodings (0xF0 head), maximum U+10FFFF (0xF4 head). -/
def cont4 (b0 b1 : Nat) : Bool :=
  isCont b1 && (b0 ≠ 240 || 144 ≤ b1) && (b0 ≠ 244 || b1 < 144)

/-- Strict UTF-8 validity of a byte list, exactly the check performed by
Rust String.from_utf8: rejects continuation-byte starts, overlong forms,
surrogates and code points above U+10FFFF. -/
def validUtf8 : List Nat → Bool
  | [] => true
  | b0 :: rest =>
    if b0 < 128 then validUtf8 rest
    else if b0 < 194 then false
    else if b0 < 224 then
      match rest with
      | b1 :: r => isCont b1 && validUtf8 r
      | [] => false
    else if b0 < 240 then
      match rest with
      | b1 :: b2 :: r => cont3 b0 b1 && isCont b2 && validUtf8 r
      | _ => false
    else if b0 < 245 then
      match rest with
      | b1 :: b2 :: b3 :: r => cont4 b0 b1 && isCont b2 && isCont b3 && validUtf8 r
      | _ => false
    else false

/-- UTF-8 encodings of every Unicode white-space character, the set that
Rust str.trim removes from both ends (char.is_whitespace). -/
def wsEncodings : List (List Nat) :=
  [[9], [10], [11], [12], [13], [32],
   [194, 133], [194, 160],
   [225, 154, 128],
   [226, 128, 128], [226, 128, 129], [226, 128, 130], [226, 128, 131],
   [226, 128, 132], [226, 128, 133], [226, 128, 134], [226, 128, 135],
   [226, 128, 136], [226, 128, 137], [226, 128, 138],
   [226, 128, 168], [226, 128, 169], [226, 128, 175],
   [226, 129, 159],
   [227, 128, 128]]

/-- Length of the white-space character encoding starting the byte list,
if any. -/
def wsPrefixLen (l : List Nat) : Option Nat :=
  (wsEncodings.find? fun w => w.isPrefixOf l).map List.length

/-- Length of the white-space character encoding ending the byte list,
if any. -/
def wsSuffixLen (l : List Nat) : Option Nat :=
  (wsEncodings.find? fun w => w.isSuffixOf l).map List.length

/-- Fuelled worker for trimStart: drop leading white-space encodings. -/
def trimStartAux : Nat → List Nat → List Nat
  | 0, l => l
  | f + 1, l =>
    match wsPrefixLen l with
    | some n => trimStartAux f (l.drop n)
    | none => l

/-- Fuelled worker for trimEnd: drop trailing white-space encodings. -/
def trimEndAux : Nat → List Nat → List Nat
  | 0, l => l
  | f + 1, l =>
    match wsSuffixLen l with
    | some n => trimEndAux f (l.take (l.length - n))
    | none => l

/-- Byte-level model of Rust str.trim_start on valid UTF-8 bytes. -/
def trimStartB (l : List Nat) : List Nat := trimStartAux l.length l

/-- Byte-level model of Rust str.trim_end on valid UTF-8 bytes. -/
def trimEndB (l : List Nat) : List Nat := trimEndAux l.length l

/-- Byte-level model of Rust str.trim on valid UTF-8 bytes, as used by
write_xml of both transports on its payload argument. -/
def trimB (l : List Nat) : List Nat := trimEndB (trimStartB l)

/-- Bytes of an ASCII Lean string literal (all source payloads are ASCII,
where the code point equals the byte). -/
def strBytes (s : String) : List Nat := s.toList.map Char.toNat

/-- Concatenation of a list of byte chunks. -/
def joinAll : List (List Nat) → List Nat
  | [] => []
  | c :: t => c ++ joinAll t

/-! ## SSHTransport (ssh2 backend) framing

SSHTransport.read_xml loops reading the channel into read_buffer until the
delimiter is found, then unwraps String.from_utf8 on the prefix before the
delimiter and drains message plus delimiter.  A channel read yields either
a byte chunk (Ok, at most 128 bytes per call in the source; the chunk size
is irrelevant to the framing logic) or an I/O error.  Once the listed
events are exhausted, further reads return zero bytes, which is how the
ssh2 channel signals end of stream (Ok(0) forever). -/

/-- One result of SSHTransport channel.read. -/
inductive SshEvent : Type where
  | chunk (bytes : List Nat)
  | ioErr
deriving DecidableEq

/-- Result of SSHTransport.read_xml: ok carries the returned message bytes
together with the post-call read_buffer and the unconsumed channel events;
ioError models the question-mark propagation of a channel read error;
panicked models the unwrap panic on invalid UTF-8. -/
inductive SshResult : Type where
  | ok (msg : List Nat) (buf : List Nat) (evs : List SshEvent)
  | ioError
  | panicked
deriving DecidableEq

/-- Post-loop code of SSHTransport.read_xml: String.from_utf8(...).unwrap()
then drain of message plus delimiter. -/
def sshFinish (msg buf2 : List Nat) (evs : List SshEvent) : SshResult :=
  if validUtf8 msg then SshResult.ok msg buf2 evs else SshResult.panicked

/-- Exit path of the read loop, taken as soon as the delimiter is found at
position pos: return the prefix (passed through from_utf8) and drain the
message plus the six delimiter bytes. -/
def sshExit (buf : List Nat) (evs : List SshEvent) (pos : Nat) : Option SshResult :=
  some (sshFinish (buf.take pos) (buf.drop (pos + 6)) evs)

/-- SSHTransport.read_xml with explicit fuel bounding the number of loop
iterations; none means the fuel ran out, so a result of none at every fuel
means the source loops forever.  Each iteration first searches the whole
accumulated buffer and exits on a hit; otherwise one channel read result
is consumed (end of stream delivers zero bytes forever). -/
def sshReadXml : Nat → List Nat → List SshEvent → Option SshResult
  | 0, buf, evs => Option.elim (findDelim buf) none (sshExit buf evs)
  | f + 1, buf, [] => Option.elim (findDelim buf) (sshReadXml f buf []) (sshExit buf [])
  | f + 1, buf, SshEvent.chunk bs :: rest =>
    Option.elim (findDelim buf) (sshReadXml f (buf ++ bs) rest)
      (sshExit buf (SshEvent.chunk bs :: rest))
  | _ + 1, buf, SshEvent.ioErr :: rest =>
    Option.elim (findDelim buf) (some SshResult.ioError)
      (sshExit buf (SshEvent.ioErr :: rest))

/-- Bytes SSHTransport.write_xml puts on the channel for a payload:
the trimmed payload immediately followed by the delimiter. -/
def sshWriteWire (data : List Nat) : List Nat := trimB data ++ delim

/-! ## RusshTransport (russh backend) framing

RusshTransport.read_xml loops on channel.wait(): a Data message extends
read_buffer, any other message is ignored, and wait returning None is
mapped to an UnexpectedEof connection-closed error.  The delimiter prefix
is converted with String.from_utf8 whose failure is mapped to an
InvalidData decode error. -/

/-- One result of RusshTransport channel.wait (None is modelled by the
event list running out). -/
inductive RusshEvent : Type where
  | data (bytes : List Nat)
  | other
deriving DecidableEq

/-- Result of RusshTransport.read_xml. -/
inductive RusshResult : Type where
  | ok (msg : List Nat) (buf : List Nat) (evs : List RusshEvent)
  | connClosed
  | decodeError
deriving DecidableEq

/-- Post-loop code of RusshTransport.read_xml: from_utf8 mapped to a
decode error, then drain of message plus delimiter. -/
def russhFinish (msg buf2 : List Nat) (evs : List RusshEvent) : RusshResult :=
  if validUtf8 msg then RusshResult.ok msg buf2 evs else RusshResult.decodeError

/-- Exit path of the russh read loop at delimiter position pos. -/
def russhExit (buf : List Nat) (evs : List RusshEvent) (pos : Nat) : Option RusshResult :=
  some (russhFinish (buf.take pos) (buf.drop (pos + 6)) evs)

/-- RusshTransport.read_xml with explicit fuel bounding the number of loop
iterations.  Each iteration first searches the whole accumulated buffer and
exits on a hit; otherwise one channel.wait result is consumed, where an
exhausted channel (wait returning None) is the connection-closed error. -/
def russhReadXml : Nat → List Nat → List RusshEvent → Option RusshResult
  | 0, buf, evs => Option.elim (findDelim buf) none (russhExit buf evs)
  | _ + 1, buf, [] =>
    Option.elim (findDelim buf) (some RusshResult.connClosed) (russhExit buf [])
  | f + 1, buf, RusshEvent.data bs :: rest =>
    Option.elim (findDelim buf) (russhReadXml f (buf ++ bs) rest)
      (russhExit buf (RusshEvent.data bs :: rest))
  | f + 1, buf, RusshEvent.other :: rest =>
    Option.elim (findDelim buf) (russhReadXml f buf rest)
      (russhExit buf (RusshEvent.other :: rest))

/-- Bytes RusshTransport.write_xml puts on the channel for a payload:
format of the trimmed payload immediately followed by the delimiter. -/
def russhWriteWire (data : List Nat) : List Nat := trimB data ++ delim

/-! ## Session layer (Connection in lib.rs)

Connection owns a boxed dyn Transport and nothing else: it has no state
field.  The dyn Transport is modelled by a state type and two functions
returning the new state and an outcome; the XML codec from_str applied to
the hello reply is the external serde backend, modelled by an abstract
decoding function passed in. -/

/-- Outcome of a fallible call: ok, an io error (abstracted to a numeric
code), or a Rust panic. -/
inductive TRes (α : Type) : Type where
  | ok (a : α)
  | err (e : Nat)
  | panicked
deriving DecidableEq

/-- Model of a dyn Transport trait object: state plus the two methods. -/
structure TransModel (σ : Type) : Type where
  writeXml : σ → List Nat → σ × TRes Unit
  readXml : σ → σ × TRes (List Nat)

/-- The Capabilities struct of lib.rs: capability is a Vec of String. -/
structure Capabilities : Type where
  capability : List (List Nat)
deriving DecidableEq

/-- The Hello struct of lib.rs deserialized from the peer greeting. -/
structure Hello : Type where
  capabilities : Capabilities
deriving DecidableEq

/-- The exact hello payload string literal written by Connection::hello
(note that it ends with the delimiter itself, before trimming trailing
white space). -/
def helloStr : String :=
  "\n<?xml version=\"1.0\" encoding=\"UTF-8\"?>\n<hello xmlns=\"urn:ietf:params:xml:ns:netconf:base:1.0\">\n    <capabilities>\n        <capability>\n            urn:ietf:params:netconf:base:1.0\n        </capability>\n    </capabilities>\n</hello>\n]]>]]>\n        "

/-- Byte form of the hello payload. -/
def helloBytes : List Nat := strBytes helloStr

/-- The exact get-config payload string literal written by
Connection::get_config. -/
def getConfigStr : String :=
  "\n<?xml version=\"1.0\" encoding=\"UTF-8\"?>\n<rpc message-id=\"100\"\n    xmlns=\"urn:ietf:params:xml:ns:netconf:base:1.0\">\n    <get-config>\n        <source>\n            <running/>\n        </source>\n    </get-config>\n</rpc>\n        "

/-- Byte form of the get-config payload. -/
def getConfigBytes : List Nat := strBytes getConfigStr

/-- Connection::hello: write the greeting, read the reply, then
from_str(resp.trim()).unwrap() - decode failure is a panic, and the
decoded Hello value is only debug-printed, never examined. -/
def connectionHello (dec : List Nat → Option Hello) (T : TransModel σ)
    (s : σ) : σ × TRes Unit :=
  match T.writeXml s helloBytes with
  | (s1, TRes.err e) => (s1, TRes.err e)
  | (s1, TRes.panicked) => (s1, TRes.panicked)
  | (s1, TRes.ok _) =>
    match T.readXml s1 with
    | (s2, TRes.err e) => (s2, TRes.err e)
    | (s2, TRes.panicked) => (s2, TRes.panicked)
    | (s2, TRes.ok resp) =>
      match dec (trimB resp) with
      | some _ => (s2, TRes.ok ())
      | none => (s2, TRes.panicked)

/-- Connection::new: box the transport and run hello; an ok result means a
Connection value owning the transport in the returned state was produced
and returned to the caller. -/
def connectionNew (dec : List Nat → Option Hello) (T : TransModel σ)
    (s : σ) : σ × TRes Unit :=
  connectionHello dec T s

/-- Connection::get_config: write the request payload, then read and
return the raw reply; no session state is consulted or updated. -/
def connectionGetConfig (T : TransModel σ) (s : σ) : σ × TRes (List Nat) :=
  match T.writeXml s getConfigBytes with
  | (s1, TRes.err e) => (s1, TRes.err e)
  | (s1, TRes.panicked) => (s1, TRes.panicked)
  | (s1, TRes.ok _) => T.readXml s1

/-! ## Properties of the delimiter search -/

theorem findDelim_bound {l : List Nat} {p : Nat} (h : findDelim l = some p) :
    p + 6 ≤ l.length := by
  induction l generalizing p with
  | nil => simp [findDelim] at h
  | cons a t ih =>
    rw [findDelim] at h
    by_cases hp : delim.isPrefixOf (a :: t) = true
    · simp only [hp, if_true, Option.some.injEq] at h
      subst h
      have := (List.isPrefixOf_iff_prefix.mp hp).length_le
      simpa [delim] using this
    · rw [if_neg hp] at h
      match hft : findDelim t with
      | none => rw [hft] at h; simp at h
      | some q =>
      rw [hft] at h
      simp only [Option.map_some', Option.some.injEq] at h
      subst h
      have hq : findDelim t = some q := hft
      have := ih hq
      simp only [List.length_cons]
      omega

theorem prefix_append_iff {x l r : List Nat} (h : x.length ≤ l.length) :
    x <+: (l ++ r) ↔ x <+: l := by
  constructor
  · intro hx
    have hx2 := List.prefix_iff_eq_take.mp hx
    have htake : (l ++ r).take x.length = l.take x.length := by
      rw [List.take_append_eq_append_take, Nat.sub_eq_zero_of_le h, List.take_zero,
        List.append_nil]
    rw [hx2, htake]
    exact List.take_prefix _ _
  · intro hx
    exact hx.trans (l.prefix_append r)

theorem findDelim_append {l : List Nat} {p : Nat} (h : findDelim l = some p)
    (r : List Nat) : findDelim (l ++ r) = some p := by
  induction l generalizing p with
  | nil => simp [findDelim] at h
  | cons a t ih =>
    rw [findDelim] at h
    rw [List.cons_append, findDelim]
    by_cases hp : delim.isPrefixOf (a :: t) = true
    · have hp2 : delim.isPrefixOf (a :: (t ++ r)) = true := by
        refine List.isPrefixOf_iff_prefix.mpr ?_
        have := (List.isPrefixOf_iff_prefix.mp hp).trans ((a :: t).prefix_append r)
        simpa using this
      simp only [hp, if_true, Option.some.injEq] at h
      subst h
      simp [hp2]
    · rw [if_neg hp] at h
      match hft : findDelim t with
      | none => rw [hft] at h; simp at h
      | some q =>
      rw [hft] at h
      simp only [Option.map_some', Option.some.injEq] at h
      subst h
      have hq : findDelim t = some q := hft
      have hlen : q + 6 ≤ t.length := findDelim_bound hq
      have hnp : ¬ delim.isPrefixOf (a :: (t ++ r)) = true := by
        intro hc
        apply hp
        refine List.isPrefixOf_iff_prefix.mpr ?_
        have hpre := List.isPrefixOf_iff_prefix.mp hc
        have hlen2 : delim.length ≤ (a :: t).length := by
          have h6 : delim.length = 6 := by rfl
          simp only [List.length_cons, h6]
          omega
        have : delim <+: ((a :: t) ++ r) := by simpa using hpre
        exact (prefix_append_iff hlen2).mp this
      simp [hnp, ih hq]

theorem findDelim_take {l : List Nat} {p : Nat} (h : findDelim l = some p) :
    findDelim (l.take p) = none := by
  induction l generalizing p with
  | nil => simp [findDelim] at h
  | cons a t ih =>
    rw [findDelim] at h
    by_cases hp : delim.isPrefixOf (a :: t) = true
    · simp only [hp, if_true, Option.some.injEq] at h
      subst h
      simp [findDelim]
    · rw [if_neg hp] at h
      match hft : findDelim t with
      | none => rw [hft] at h; simp at h
      | some q =>
      rw [hft] at h
      simp only [Option.map_some', Option.some.injEq] at h
      subst h
      have hq : findDelim t = some q := hft
      rw [List.take_succ_cons, findDelim]
      have hnp : ¬ delim.isPrefixOf (a :: t.take q) = true := by
        intro hc
        apply hp
        refine List.isPrefixOf_iff_prefix.mpr ?_
        refine (List.isPrefixOf_iff_prefix.mp hc).trans ?_
        obtain ⟨w, hw⟩ := List.take_prefix q t
        exact ⟨w, by simp [hw]⟩
      simp [hnp, ih hq]

/-! ## Unfolding equations of the framing loops -/

theorem sshReadXml_found {buf : List Nat} {p : Nat} (h : findDelim buf = some p)
    (fuel : Nat) (evs : List SshEvent) :
    sshReadXml fuel buf evs = some (sshFinish (buf.take p) (buf.drop (p + 6)) evs) := by
  match fuel, evs with
  | 0, evs => rw [sshReadXml, h]; rfl
  | f + 1, [] => rw [sshReadXml, h]; rfl
  | f + 1, SshEvent.chunk bs :: rest => rw [sshReadXml, h]; rfl
  | f + 1, SshEvent.ioErr :: rest => rw [sshReadXml, h]; rfl

theorem sshReadXml_step_chunk {buf : List Nat} (h : findDelim buf = none)
    (f : Nat) (bs : List Nat) (rest : List SshEvent) :
    sshReadXml (f + 1) buf (SshEvent.chunk bs :: rest) =
      sshReadXml f (buf ++ bs) rest := by
  rw [sshReadXml, h]; rfl

theorem sshReadXml_step_eof {buf : List Nat} (h : findDelim buf = none) (f : Nat) :
    sshReadXml (f + 1) buf [] = sshReadXml f buf [] := by
  rw [sshReadXml, h]; rfl

theorem russhReadXml_found {buf : List Nat} {p : Nat} (h : findDelim buf = some p)
    (fuel : Nat) (evs : List RusshEvent) :
    russhReadXml fuel buf evs = some (russhFinish (buf.take p) (buf.drop (p + 6)) evs) := by
  match fuel, evs with
  | 0, evs => rw [russhReadXml, h]; rfl
  | f + 1, [] => rw [russhReadXml, h]; rfl
  | f + 1, RusshEvent.data bs :: rest => rw [russhReadXml, h]; rfl
  | f + 1, RusshEvent.other :: rest => rw [russhReadXml, h]; rfl

theorem russhReadXml_step_data {buf : List Nat} (h : findDelim buf = none)
    (f : Nat) (bs : List Nat) (rest : List RusshEvent) :
    russhReadXml (f + 1) buf (RusshEvent.data bs :: rest) =
      russhReadXml f (buf ++ bs) rest := by
  rw [russhReadXml, h]; rfl

theorem russhReadXml_closed {buf : List Nat} (h : findDelim buf = none) (f : Nat) :
    russhReadXml (f + 1) buf [] = some RusshResult.connClosed := by
  rw [russhReadXml, h]; rfl

/-! ## The framing loop on a stream containing the delimiter -/

theorem sshReadXml_loop (cs : List (List Nat)) :
    ∀ (buf : List Nat) (fuel : Nat), cs.length ≤ fuel →
    ∀ p, findDelim (buf ++ joinAll cs) = some p →
    ∃ buf2 cs2, cs2.length ≤ cs.length ∧
      sshReadXml fuel buf (cs.map SshEvent.chunk) =
        some (sshFinish ((buf ++ joinAll cs).take p) buf2 (cs2.map SshEvent.chunk)) ∧
      buf2 ++ joinAll cs2 = (buf ++ joinAll cs).drop (p + 6) := by
  induction cs with
  | nil =>
    intro buf fuel _ p hp
    simp only [joinAll, List.append_nil] at hp ⊢
    exact ⟨buf.drop (p + 6), [], Nat.le_refl _, by
      simpa [joinAll] using sshReadXml_found hp fuel [], by simp [joinAll]⟩
  | cons c cs ih =>
    intro buf fuel hf p hp
    match hb : findDelim buf with
    | some q =>
      have hq : findDelim (buf ++ joinAll (c :: cs)) = some q :=
        findDelim_append hb _
      have hpq : p = q := by
        rw [hp] at hq
        exact Option.some.inj hq
      subst hpq
      have hbound : p + 6 ≤ buf.length := findDelim_bound hb
      have htake : (buf ++ joinAll (c :: cs)).take p = buf.take p := by
        rw [List.take_append_eq_append_take, Nat.sub_eq_zero_of_le (by omega),
          List.take_zero, List.append_nil]
      have hdrop : (buf ++ joinAll (c :: cs)).drop (p + 6) =
          buf.drop (p + 6) ++ joinAll (c :: cs) := by
        rw [List.drop_append_eq_append_drop, Nat.sub_eq_zero_of_le hbound,
          List.drop_zero]
      exact ⟨buf.drop (p + 6), c :: cs, Nat.le_refl _, by
        rw [sshReadXml_found hb fuel, htake], hdrop.symm⟩
    | none =>
      match fuel with
      | 0 =>
        exfalso
        simp only [List.length_cons] at hf
        omega
      | f + 1 =>
        rw [List.map_cons, sshReadXml_step_chunk hb]
        have hp2 : findDelim ((buf ++ c) ++ joinAll cs) = some p := by
          rw [List.append_assoc]
          exact hp
        have hf2 : cs.length ≤ f := by
          simp only [List.length_cons] at hf
          omega
        obtain ⟨buf2, cs2, hlen, heq, hrest⟩ := ih (buf ++ c) f hf2 p hp2
        refine ⟨buf2, cs2, Nat.le_succ_of_le hlen, ?_, ?_⟩
        · rw [heq, joinAll, ← List.append_assoc]
        · rw [hrest, joinAll, ← List.append_assoc]

theorem russhReadXml_loop (cs : List (List Nat)) :
    ∀ (buf : List Nat) (fuel : Nat), cs.length ≤ fuel →
    ∀ p, findDelim (buf ++ joinAll cs) = some p →
    ∃ buf2 cs2, cs2.length ≤ cs.length ∧
      russhReadXml fuel buf (cs.map RusshEvent.data) =
        some (russhFinish ((buf ++ joinAll cs).take p) buf2 (cs2.map RusshEvent.data)) ∧
      buf2 ++ joinAll cs2 = (buf ++ joinAll cs).drop (p + 6) := by
  induction cs with
  | nil =>
    intro buf fuel _ p hp
    simp only [joinAll, List.append_nil] at hp ⊢
    exact ⟨buf.drop (p + 6), [], Nat.le_refl _, by
      simpa [joinAll] using russhReadXml_found hp fuel [], by simp [joinAll]⟩
  | cons c cs ih =>
    intro buf fuel hf p hp
    match hb : findDelim buf with
    | some q =>
      have hq : findDelim (buf ++ joinAll (c :: cs)) = some q :=
        findDelim_append hb _
      have hpq : p = q := by
        rw [hp] at hq
        exact Option.some.inj hq
      subst hpq
      have hbound : p + 6 ≤ buf.length := findDelim_bound hb
      have htake : (buf ++ joinAll (c :: cs)).take p = buf.take p := by
        rw [List.take_append_eq_append_take, Nat.sub_eq_zero_of_le (by omega),
          List.take_zero, List.append_nil]
      have hdrop : (buf ++ joinAll (c :: cs)).drop (p + 6) =
          buf.drop (p + 6) ++ joinAll (c :: cs) := by
        rw [List.drop_append_eq_append_drop, Nat.sub_eq_zero_of_le hbound,
          List.drop_zero]
      exact ⟨buf.drop (p + 6), c :: cs, Nat.le_refl _, by
        rw [russhReadXml_found hb fuel, htake], hdrop.symm⟩
    | none =>
      match fuel with
      | 0 =>
        exfalso
        simp only [List.length_cons] at hf
        omega
      | f + 1 =>
        rw [List.map_cons, russhReadXml_step_data hb]
        have hp2 : findDelim ((buf ++ c) ++ joinAll cs) = some p := by
          rw [List.append_assoc]
          exact hp
        have hf2 : cs.length ≤ f := by
          simp only [List.length_cons] at hf
          omega
        obtain ⟨buf2, cs2, hlen, heq, hrest⟩ := ih (buf ++ c) f hf2 p hp2
        refine ⟨buf2, cs2, Nat.le_succ_of_le hlen, ?_, ?_⟩
        · rw [heq, joinAll, ← List.append_assoc]
        · rw [hrest, joinAll, ← List.append_assoc]

/-! ## A successful read never returns the delimiter inside the message -/

theorem sshFinish_ok {msg buf2 : List Nat} {evs : List SshEvent}
    {m b : List Nat} {e : List SshEvent}
    (h : sshFinish msg buf2 evs = SshResult.ok m b e) : m = msg := by
  unfold sshFinish at h
  by_cases hv : validUtf8 msg = true
  · rw [if_pos hv] at h
    cases h
    rfl
  · rw [if_neg hv] at h
    cases h

theorem sshReadXml_ok_msg :
    ∀ (fuel : Nat) (buf : List Nat) (evs : List SshEvent) m b e,
      sshReadXml fuel buf evs = some (SshResult.ok m b e) →
      ∃ bufX p, findDelim bufX = some p ∧ m = bufX.take p := by
  intro fuel
  induction fuel with
  | zero =>
    intro buf evs m b e h
    rw [sshReadXml] at h
    match hb : findDelim buf with
    | some q =>
      rw [hb] at h
      simp only [Option.elim_some, sshExit, Option.some.injEq] at h
      exact ⟨buf, q, hb, sshFinish_ok h⟩
    | none =>
      rw [hb] at h
      simp at h
  | succ f ih =>
    intro buf evs m b e h
    match hb : findDelim buf with
    | some q =>
      rw [sshReadXml_found hb] at h
      simp only [Option.some.injEq] at h
      exact ⟨buf, q, hb, sshFinish_ok h⟩
    | none =>
      match evs with
      | [] =>
        rw [sshReadXml_step_eof hb] at h
        exact ih buf [] m b e h
      | SshEvent.chunk bs :: rest =>
        rw [sshReadXml_step_chunk hb] at h
        exact ih (buf ++ bs) rest m b e h
      | SshEvent.ioErr :: rest =>
        rw [sshReadXml, hb] at h
        simp at h

theorem russhFinish_ok {msg buf2 : List Nat} {evs : List RusshEvent}
    {m b : List Nat} {e : List RusshEvent}
    (h : russhFinish msg buf2 evs = RusshResult.ok m b e) : m = msg := by
  unfold russhFinish at h
  by_cases hv : validUtf8 msg = true
  · rw [if_pos hv] at h
    cases h
    rfl
  · rw [if_neg hv] at h
    cases h

theorem russhReadXml_ok_msg :
    ∀ (fuel : Nat) (buf : List Nat) (evs : List RusshEvent) m b e,
      russhReadXml fuel buf evs = some (RusshResult.ok m b e) →
      ∃ bufX p, findDelim bufX = some p ∧ m = bufX.take p := by
  intro fuel
  induction fuel with
  | zero =>
    intro buf evs m b e h
    rw [russhReadXml] at h
    match hb : findDelim buf with
    | some q =>
      rw [hb] at h
      simp only [Option.elim_some, russhExit, Option.some.injEq] at h
      exact ⟨buf, q, hb, russhFinish_ok h⟩
    | none =>
      rw [hb] at h
      simp at h
  | succ f ih =>
    intro buf evs m b e h
    match hb : findDelim buf with
    | some q =>
      rw [russhReadXml_found hb] at h
      simp only [Option.some.injEq] at h
      exact ⟨buf, q, hb, russhFinish_ok h⟩
    | none =>
      match evs with
      | [] =>
        rw [russhReadXml, hb] at h
        simp at h
      | RusshEvent.data bs :: rest =>
        rw [russhReadXml_step_data hb] at h
        exact ih (buf ++ bs) rest m b e h
      | RusshEvent.other :: rest =>
        rw [russhReadXml, hb] at h
        exact ih buf rest m b e (by simpa using h)

/-! ## Claims about the framing layer -/

/-- C1: when the underlying byte channel signals end of stream while no
delimiter is buffered, SSHTransport.read_xml never returns at all (the
zero-byte read keeps the loop spinning at every fuel), while
RusshTransport.read_xml returns the connection-closed error; the claim
that every transport returns an I/O error holds only for russh. -/
theorem read_xml_closed_channel :
    (∀ (buf : List Nat) (fuel : Nat), findDelim buf = none →
      sshReadXml fuel buf [] = none) ∧
    (∀ (buf : List Nat) (fuel : Nat), findDelim buf = none →
      russhReadXml (fuel + 1) buf [] = some RusshResult.connClosed) := by
  constructor
  · intro buf fuel h
    induction fuel with
    | zero => rw [sshReadXml, h]; rfl
    | succ f ih => rw [sshReadXml_step_eof h]; exact ih
  · intro buf fuel h
    exact russhReadXml_closed h fuel

/-- Witness for C1 at the concrete closed channel with an empty buffer. -/
theorem read_xml_closed_channel_witness :
    sshReadXml 5 [] [] = none ∧
    russhReadXml 1 [] [] = some RusshResult.connClosed :=
  ⟨read_xml_closed_channel.1 [] 5 rfl, read_xml_closed_channel.2 [] 0 rfl⟩

/-- C4: on a message whose bytes before the delimiter are not valid UTF-8
(a lone 0xFF byte), SSHTransport.read_xml panics through unwrap instead of
returning a decode error, while RusshTransport.read_xml returns the decode
error; the claim holds only for russh. -/
theorem read_xml_invalid_utf8 :
    sshReadXml 1 [] [SshEvent.chunk (255 :: delim)] = some SshResult.panicked ∧
    russhReadXml 1 [] [RusshEvent.data (255 :: delim)] = some RusshResult.decodeError := by
  constructor
  · decide
  · decide

set_option maxRecDepth 200000 in
/-- C7: the hello greeting payload which Connection::hello passes to
write_xml itself contains the delimiter (at byte offset 232), so the framed
hello on the wire carries the delimiter at offset 231 and again immediately
after it - two end-of-message delimiters for one message, not one. -/
theorem hello_payload_contains_delim :
    findDelim helloBytes = some 232 ∧
    findDelim (sshWriteWire helloBytes) = some 231 ∧
    findDelim ((sshWriteWire helloBytes).drop (231 + 6)) = some 0 := by
  refine ⟨?_, ?_, ?_⟩
  · decide
  · decide
  · decide

/-- C10: whenever read_xml returns a message (for either transport), the
returned bytes contain no occurrence of the delimiter: the message is the
buffer prefix strictly before the first delimiter occurrence. -/
theorem read_xml_result_no_delim :
    (∀ (fuel : Nat) (buf : List Nat) (evs : List SshEvent) m b e,
      sshReadXml fuel buf evs = some (SshResult.ok m b e) → findDelim m = none) ∧
    (∀ (fuel : Nat) (buf : List Nat) (evs : List RusshEvent) m b e,
      russhReadXml fuel buf evs = some (RusshResult.ok m b e) → findDelim m = none) := by
  constructor
  · intro fuel buf evs m b e h
    obtain ⟨bufX, p, hb, hm⟩ := sshReadXml_ok_msg fuel buf evs m b e h
    rw [hm]
    exact findDelim_take hb
  · intro fuel buf evs m b e h
    obtain ⟨bufX, p, hb, hm⟩ := russhReadXml_ok_msg fuel buf evs m b e h
    rw [hm]
    exact findDelim_take hb

/-- Witness for C10 on a buffer already holding two framed messages. -/
theorem read_xml_result_no_delim_witness :
    findDelim [97] = none ∧ findDelim [98] = none :=
  ⟨read_xml_result_no_delim.1 0 ([97] ++ delim ++ [98] ++ delim) [] [97]
      ([98] ++ delim) [] (by decide),
    read_xml_result_no_delim.2 0 ([98] ++ delim) [] [98] [] [] (by decide)⟩

/-! ## Claims about the session layer -/

/-- A dyn Transport whose two methods return fixed outcomes and keep a
unit state; used to instantiate the Connection model on concrete traces. -/
def constTrans (w : TRes Unit) (r : TRes (List Nat)) : TransModel Unit :=
  { writeXml := fun _ _ => ((), w), readXml := fun _ => ((), r) }

/-- C2: at a peer greeting the codec cannot parse, Connection::new panics
(through unwrap in hello) instead of returning the failure as an error,
while a transport write error is propagated as an error; so the advertised
error return holds for transport failures but not for malformed greetings. -/
theorem connection_new_failure_modes :
    connectionNew (fun _ => none)
        (constTrans (TRes.ok ()) (TRes.ok (strBytes "<<garbage>>"))) () =
      ((), TRes.panicked) ∧
    connectionNew (fun _ => none) (constTrans (TRes.err 3) (TRes.ok [])) () =
      ((), TRes.err 3) := by
  constructor
  · rfl
  · rfl

/-- Peer greeting that advertises a single capability which is not the
NETCONF base capability. -/
def fooGreeting : List Nat :=
  strBytes "<hello xmlns=\"urn:ietf:params:xml:ns:netconf:base:1.0\"><capabilities><capability>urn:example:foo</capability></capabilities></hello>"

/-- The Hello value the serde codec produces for fooGreeting. -/
def fooHello : Hello :=
  { capabilities := { capability := [strBytes "urn:example:foo"] } }

/-- Codec behaviour on fooGreeting: parses it to fooHello, fails on other
documents. -/
def fooDec : List Nat → Option Hello := fun bs =>
  if bs = trimB fooGreeting then some fooHello else none

set_option maxRecDepth 200000 in
/-- Counterexample to C3: a peer greeting advertising only the unrelated
capability urn:example:foo (so its capability set does not contain the base
capability) still makes Connection::new return a ready Connection. -/
theorem connection_new_without_base_capability :
    connectionNew fooDec (constTrans (TRes.ok ()) (TRes.ok fooGreeting)) () =
      ((), TRes.ok ()) ∧
    strBytes "urn:ietf:params:netconf:base:1.0" ∉ fooHello.capabilities.capability := by
  constructor
  · decide
  · decide

/-- C3 (amended): the handshake outcome never depends on the decoded
capability set: whenever the transport write and read succeed and the
codec decodes the greeting into any Hello value whatsoever (in particular
one without the base capability), Connection::new returns a ready
Connection. -/
theorem connection_new_ignores_capabilities {σ : Type} (T : TransModel σ)
    (s s1 s2 : σ) (resp : List Nat) (dec : List Nat → Option Hello) (h : Hello)
    (hw : T.writeXml s helloBytes = (s1, TRes.ok ()))
    (hr : T.readXml s1 = (s2, TRes.ok resp))
    (hd : dec (trimB resp) = some h) :
    connectionNew dec T s = (s2, TRes.ok ()) := by
  unfold connectionNew connectionHello
  rw [hw]
  dsimp only
  rw [hr]
  dsimp only
  rw [hd]

/-- Witness for the amended C3 with a capability-free codec result. -/
theorem connection_new_ignores_capabilities_witness :
    connectionNew (fun _ => some fooHello) (constTrans (TRes.ok ()) (TRes.ok [])) () =
      ((), TRes.ok ()) :=
  connection_new_ignores_capabilities _ () () () [] _ fooHello rfl rfl rfl

/-- A transport whose write fails on the first call (counter state 0) and
succeeds afterwards, with reads always delivering a fixed reply; models a
transient transport I/O failure. -/
def flakyTrans : TransModel Nat :=
  { writeXml := fun n _ => (n + 1, if n = 0 then TRes.err 5 else TRes.ok ()),
    readXml := fun n => (n, TRes.ok (strBytes "<rpc-reply/>")) }

/-- Counterexample to C5: after a transport I/O failure during get_config,
the very next get_config on the same Connection attempts the transport
again and succeeds - there is no closed state and no session-closed
error. -/
theorem get_config_after_error_succeeds :
    connectionGetConfig flakyTrans 0 = (1, TRes.err 5) ∧
    connectionGetConfig flakyTrans 1 = (2, TRes.ok (strBytes "<rpc-reply/>")) := by
  constructor
  · rfl
  · rfl

/-- C5 (amended): the Connection keeps no session state, so the outcome of
any get_config call is produced by running the transport write and read
afresh from the current transport state: whenever they succeed the call
returns the reply, regardless of earlier failures. -/
theorem get_config_attempts_transport {σ : Type} (T : TransModel σ)
    (s s1 s2 : σ) (resp : List Nat)
    (hw : T.writeXml s getConfigBytes = (s1, TRes.ok ()))
    (hr : T.readXml s1 = (s2, TRes.ok resp)) :
    connectionGetConfig T s = (s2, TRes.ok resp) := by
  unfold connectionGetConfig
  rw [hw]
  dsimp only
  exact hr

/-- Witness for the amended C5, applying it right after the failed call of
the flaky transport. -/
theorem get_config_attempts_transport_witness :
    connectionGetConfig flakyTrans 1 = (2, TRes.ok (strBytes "<rpc-reply/>")) :=
  get_config_attempts_transport flakyTrans 1 2 2 (strBytes "<rpc-reply/>") rfl rfl

/-! ## Claims about write and read round trips -/

/-- Counterexample to C6: the round trip is not the identity.  First, the
payload space-a (bytes 32 97) comes back as a (write_xml trims); second,
the payload a-bracket-bracket-greater (no delimiter occurrence inside it)
comes back truncated to a, because its trailing three bytes merge with the
appended delimiter into an earlier delimiter occurrence. -/
theorem write_read_roundtrip_ce :
    (sshReadXml 1 [] [SshEvent.chunk (sshWriteWire [32, 97])] =
        some (SshResult.ok [97] [] []) ∧ ([97] : List Nat) ≠ [32, 97]) ∧
    (sshReadXml 1 [] [SshEvent.chunk (sshWriteWire [97, 93, 93, 62])] =
        some (SshResult.ok [97] [93, 93, 62] []) ∧
      ([97] : List Nat) ≠ [97, 93, 93, 62] ∧
      findDelim [97, 93, 93, 62] = none) := by
  constructor
  · exact ⟨by decide, by decide⟩
  · exact ⟨by decide, by decide, by decide⟩

/-- C6 (amended): for every payload P that is already trimmed and whose
framed bytes contain the delimiter first at position length P (so P has no
delimiter occurrence and does not end with the three bytes
bracket-bracket-greater), writing P and reading it back on a loopback
channel returns exactly P, on both transports. -/
theorem write_read_roundtrip (P : List Nat)
    (hv : validUtf8 P = true) (ht : trimB P = P)
    (hd : findDelim (P ++ delim) = some P.length) :
    sshReadXml 1 [] [SshEvent.chunk (sshWriteWire P)] =
      some (SshResult.ok P [] []) ∧
    russhReadXml 1 [] [RusshEvent.data (russhWriteWire P)] =
      some (RusshResult.ok P [] []) := by
  have hwireS : sshWriteWire P = P ++ delim := by rw [sshWriteWire, ht]
  have hwireR : russhWriteWire P = P ++ delim := by rw [russhWriteWire, ht]
  have hlen : (P ++ delim).length = P.length + 6 := by simp [delim]
  have htake : (P ++ delim).take P.length = P := List.take_left P delim
  have hdrop : (P ++ delim).drop (P.length + 6) = [] := by
    rw [← hlen, List.drop_length]
  constructor
  · rw [hwireS, sshReadXml_step_chunk (show findDelim [] = none from rfl) 0 _ [], List.nil_append,
      sshReadXml_found hd 0 [], htake, hdrop]
    unfold sshFinish
    rw [if_pos hv]
  · rw [hwireR, russhReadXml_step_data (show findDelim [] = none from rfl) 0 _ [], List.nil_append,
      russhReadXml_found hd 0 [], htake, hdrop]
    unfold russhFinish
    rw [if_pos hv]

/-- Witness for the amended C6 at the two-byte payload hi. -/
theorem write_read_roundtrip_witness :
    sshReadXml 1 [] [SshEvent.chunk (sshWriteWire [104, 105])] =
      some (SshResult.ok [104, 105] [] []) ∧
    russhReadXml 1 [] [RusshEvent.data (russhWriteWire [104, 105])] =
      some (RusshResult.ok [104, 105] [] []) :=
  write_read_roundtrip [104, 105] (by decide) (by decide) (by decide)

/-- Counterexample to C8: the payload a-bracket-bracket-greater contains no
delimiter occurrence, yet one way of splitting its framed stream into three
reads (each split inside the delimiter region) makes read_xml return a
instead of the payload. -/
theorem read_xml_split_invariance_ce :
    joinAll [[97, 93], [93, 62, 93, 93], [62, 93, 93, 62]] =
      [97, 93, 93, 62] ++ delim ∧
    findDelim [97, 93, 93, 62] = none ∧
    sshReadXml 3 []
        ([[97, 93], [93, 62, 93, 93], [62, 93, 93, 62]].map SshEvent.chunk) =
      some (SshResult.ok [97] [93, 93, 62] []) ∧
    ([97] : List Nat) ≠ [97, 93, 93, 62] := by
  exact ⟨by decide, by decide, by decide, by decide⟩

/-- C8 (amended): for every payload P whose framed stream P plus delimiter
contains the delimiter first at position length P, and for every way of
splitting that stream into physical reads (including splits inside the six
delimiter bytes), read_xml of both transports returns exactly P with an
empty buffer and no data left in the unconsumed events, because the search
runs over the whole accumulated buffer; a delimiter at stream start (P
empty) yields the empty string. -/
theorem read_xml_split_invariance (P : List Nat) (cs : List (List Nat)) (fuel : Nat)
    (hj : joinAll cs = P ++ delim)
    (hd : findDelim (P ++ delim) = some P.length)
    (hv : validUtf8 P = true)
    (hf : cs.length ≤ fuel) :
    (∃ cs2, sshReadXml fuel [] (cs.map SshEvent.chunk) =
        some (SshResult.ok P [] (cs2.map SshEvent.chunk)) ∧ joinAll cs2 = []) ∧
    (∃ cs2, russhReadXml fuel [] (cs.map RusshEvent.data) =
        some (RusshResult.ok P [] (cs2.map RusshEvent.data)) ∧ joinAll cs2 = []) := by
  have htotal : [] ++ joinAll cs = P ++ delim := by rw [List.nil_append, hj]
  have hdt : findDelim ([] ++ joinAll cs) = some P.length := by rw [htotal]; exact hd
  have hlen : (P ++ delim).length = P.length + 6 := by simp [delim]
  have htake : (P ++ delim).take P.length = P := List.take_left P delim
  have hdrop : (P ++ delim).drop (P.length + 6) = [] := by
    rw [← hlen, List.drop_length]
  constructor
  · obtain ⟨buf2, cs2, _, heq, hrest⟩ := sshReadXml_loop cs [] fuel hf P.length hdt
    rw [htotal, htake] at heq
    rw [htotal, hdrop] at hrest
    obtain ⟨hb2, hcs2⟩ := List.append_eq_nil.mp hrest
    subst hb2
    refine ⟨cs2, ?_, hcs2⟩
    rw [heq]
    unfold sshFinish
    rw [if_pos hv]
  · obtain ⟨buf2, cs2, _, heq, hrest⟩ := russhReadXml_loop cs [] fuel hf P.length hdt
    rw [htotal, htake] at heq
    rw [htotal, hdrop] at hrest
    obtain ⟨hb2, hcs2⟩ := List.append_eq_nil.mp hrest
    subst hb2
    refine ⟨cs2, ?_, hcs2⟩
    rw [heq]
    unfold russhFinish
    rw [if_pos hv]

/-- Witness for the amended C8 with the delimiter split across two reads. -/
theorem read_xml_split_invariance_witness :
    (∃ cs2, sshReadXml 2 [] ([[104, 93, 93], [62, 93, 93, 62]].map SshEvent.chunk) =
        some (SshResult.ok [104] [] (cs2.map SshEvent.chunk)) ∧ joinAll cs2 = []) ∧
    (∃ cs2, russhReadXml 2 [] ([[104, 93, 93], [62, 93, 93, 62]].map RusshEvent.data) =
        some (RusshResult.ok [104] [] (cs2.map RusshEvent.data)) ∧ joinAll cs2 = []) :=
  read_xml_split_invariance [104] [[104, 93, 93], [62, 93, 93, 62]] 2
    (by decide) (by decide) (by decide) (by decide)

/-- Counterexample to C9: for the consecutive framed messages with payloads
x-bracket-bracket-greater and y (the first containing no delimiter
occurrence), the first read returns x rather than the first payload, so the
pair of reads does not return the two payloads. -/
theorem consecutive_messages_ce :
    sshReadXml 1 [] [SshEvent.chunk ([120, 93, 93, 62] ++ delim ++ [121] ++ delim)] =
      some (SshResult.ok [120] [93, 93, 62, 121, 93, 93, 62, 93, 93, 62] []) ∧
    ([120] : List Nat) ≠ [120, 93, 93, 62] ∧
    findDelim [120, 93, 93, 62] = none := by
  exact ⟨by decide, by decide, by decide⟩

/-- C9 (amended): for consecutive framed messages whose payloads each put
the first delimiter occurrence of their own framed stream at the payload
end, however the concatenated stream is split into physical reads, the
first read returns the first payload and leaves exactly the second framed
message distributed over buffer and unconsumed events, and the second read
returns the second payload leaving nothing - no bytes lost or duplicated;
shown for both transports. -/
theorem consecutive_messages (p1 p2 : List Nat) (cs : List (List Nat)) (fuel : Nat)
    (hj : joinAll cs = p1 ++ delim ++ p2 ++ delim)
    (h1 : findDelim (p1 ++ delim) = some p1.length)
    (h2 : findDelim (p2 ++ delim) = some p2.length)
    (hv1 : validUtf8 p1 = true) (hv2 : validUtf8 p2 = true)
    (hf : cs.length ≤ fuel) :
    (∃ buf2 cs2, sshReadXml fuel [] (cs.map SshEvent.chunk) =
        some (SshResult.ok p1 buf2 (cs2.map SshEvent.chunk)) ∧
      buf2 ++ joinAll cs2 = p2 ++ delim ∧
      ∀ fuel2, cs.length ≤ fuel2 →
        ∃ cs3, sshReadXml fuel2 buf2 (cs2.map SshEvent.chunk) =
            some (SshResult.ok p2 [] (cs3.map SshEvent.chunk)) ∧
          joinAll cs3 = []) ∧
    (∃ buf2 cs2, russhReadXml fuel [] (cs.map RusshEvent.data) =
        some (RusshResult.ok p1 buf2 (cs2.map RusshEvent.data)) ∧
      buf2 ++ joinAll cs2 = p2 ++ delim ∧
      ∀ fuel2, cs.length ≤ fuel2 →
        ∃ cs3, russhReadXml fuel2 buf2 (cs2.map RusshEvent.data) =
            some (RusshResult.ok p2 [] (cs3.map RusshEvent.data)) ∧
          joinAll cs3 = []) := by
  have htotal : [] ++ joinAll cs = (p1 ++ delim) ++ (p2 ++ delim) := by
    rw [List.nil_append, hj, List.append_assoc]
  have hdt : findDelim ([] ++ joinAll cs) = some p1.length := by
    rw [htotal]
    exact findDelim_append h1 _
  have hL1 : (p1 ++ delim).length = p1.length + 6 := by simp [delim]
  have htake1 : ((p1 ++ delim) ++ (p2 ++ delim)).take p1.length = p1 := by
    rw [List.append_assoc, List.take_left]
  have hdrop1 : ((p1 ++ delim) ++ (p2 ++ delim)).drop (p1.length + 6) = p2 ++ delim := by
    rw [← hL1, List.drop_left]
  have hL2 : (p2 ++ delim).length = p2.length + 6 := by simp [delim]
  have htake2 : (p2 ++ delim).take p2.length = p2 := List.take_left p2 delim
  have hdrop2 : (p2 ++ delim).drop (p2.length + 6) = [] := by
    rw [← hL2, List.drop_length]
  constructor
  · obtain ⟨buf2, cs2, hlen2, heq, hrest⟩ := sshReadXml_loop cs [] fuel hf p1.length hdt
    rw [htotal, htake1] at heq
    rw [htotal, hdrop1] at hrest
    refine ⟨buf2, cs2, ?_, hrest, ?_⟩
    · rw [heq]
      unfold sshFinish
      rw [if_pos hv1]
    · intro fuel2 hf2
      have hdt2 : findDelim (buf2 ++ joinAll cs2) = some p2.length := by
        rw [hrest]
        exact h2
      obtain ⟨buf3, cs3, _, heq2, hrest2⟩ :=
        sshReadXml_loop cs2 buf2 fuel2 (Nat.le_trans hlen2 hf2) p2.length hdt2
      rw [hrest, htake2] at heq2
      rw [hrest, hdrop2] at hrest2
      obtain ⟨hb3, hcs3⟩ := List.append_eq_nil.mp hrest2
      subst hb3
      refine ⟨cs3, ?_, hcs3⟩
      rw [heq2]
      unfold sshFinish
      rw [if_pos hv2]
  · obtain ⟨buf2, cs2, hlen2, heq, hrest⟩ := russhReadXml_loop cs [] fuel hf p1.length hdt
    rw [htotal, htake1] at heq
    rw [htotal, hdrop1] at hrest
    refine ⟨buf2, cs2, ?_, hrest, ?_⟩
    · rw [heq]
      unfold russhFinish
      rw [if_pos hv1]
    · intro fuel2 hf2
      have hdt2 : findDelim (buf2 ++ joinAll cs2) = some p2.length := by
        rw [hrest]
        exact h2
      obtain ⟨buf3, cs3, _, heq2, hrest2⟩ :=
        russhReadXml_loop cs2 buf2 fuel2 (Nat.le_trans hlen2 hf2) p2.length hdt2
      rw [hrest, htake2] at heq2
      rw [hrest, hdrop2] at hrest2
      obtain ⟨hb3, hcs3⟩ := List.append_eq_nil.mp hrest2
      subst hb3
      refine ⟨cs3, ?_, hcs3⟩
      rw [heq2]
      unfold russhFinish
      rw [if_pos hv2]

/-- Witness for the amended C9 on two framed messages in one read. -/
theorem consecutive_messages_witness :
    ∃ (buf2 : List Nat) (cs2 : List (List Nat)), sshReadXml 1 []
        ([[104] ++ delim ++ [105] ++ delim].map SshEvent.chunk) =
      some (SshResult.ok [104] buf2 (cs2.map SshEvent.chunk)) := by
  obtain ⟨⟨buf2, cs2, heq, _, _⟩, _⟩ :=
    consecutive_messages [104] [105] [[104] ++ delim ++ [105] ++ delim] 1
      (by decide) (by decide) (by decide) (by decide) (by decide) (by decide)
  exact ⟨buf2, cs2, heq⟩

end Netconf
